import Mathlib

/-!
Verification of the `World` state machine of `gym_ma_toy/envs/coop/game.py`
(the cooperative "team catcher" grid game).

Shallow embedding conventions:
* The numpy grid `self.map` is a total function `Int → Int → Nat`; cell
  values follow the source's `MapElement` encoding: 0 = empty, 1 = agent,
  2 = target.  All reads the source performs are guarded so indices are
  inside `[0, size)`.
* Python dict keys `"agent_1", ..., "agent_n"` are represented by their
  numeric ids `1, ..., n` (the f-string `agent_{i+1}` is a bijection
  between the two); the dict itself is an association list with unique keys.
* `np.random.shuffle(np.arange(N))` in `reset` is an external source of
  randomness: `reset` is parameterised by its result `ridx : List Nat`
  (a permutation of `0, ..., N-1`).
* Python exceptions (the `KeyError` raised by `self.agents[agent_id]` for
  an unknown agent) are modelled by a `Bool` success flag paired with the
  state at the moment the exception escapes, matching in-place mutation
  semantics of the source.
-/

/-- The grid: a total map from (row, col) to a cell value 0/1/2. -/
def GameMap : Type := Int → Int → Nat

/-- Point update of the grid, `self.map[i, j] = v`. -/
def mset (m : GameMap) (i j : Int) (v : Nat) : GameMap :=
  fun a b => if a = i ∧ b = j then v else m a b

/-- All pairs `(r, c)` with `r < rows`, `c < cols`, rows ascending then
cols ascending: the iteration order of `for i in range(..): for j in range(..)`. -/
def pairGrid : Nat → Nat → List (Nat × Nat)
  | 0, _ => []
  | r + 1, c => pairGrid r c ++ (List.range c).map (fun b => (r, b))

/-- The cells scanned by `_update_map`: `(i, j)` for `i, j in range(size)`. -/
def cellList (S : Int) : List (Int × Int) :=
  (pairGrid S.toNat S.toNat).map (fun p => ((p.1 : Int), (p.2 : Int)))

/-- Number of grid cells (inside the `size × size` board) holding value `v`. -/
def countVal (S : Int) (m : GameMap) (v : Nat) : Nat :=
  (cellList S).countP (fun p => decide (m p.1 p.2 = v))

/-- The loop body of `World.agent_capture`: how many of the four orthogonal
neighbours of `(i, j)` are in-bounds and marked agent (`== 1`). -/
def agentNeighbors (size : Int) (world_map : GameMap) (i j : Int) : Nat :=
  ([(i + 1, j), (i - 1, j), (i, j + 1), (i, j - 1)] : List (Int × Int)).countP
    (fun n => decide (0 ≤ n.1 ∧ n.1 < size ∧ 0 ≤ n.2 ∧ n.2 < size ∧ world_map n.1 n.2 = 1))

/-- `World.agent_capture`: `n_agent_neighbour >= 2`. -/
def agent_capture (pixel : Int × Int) (size : Int) (world_map : GameMap) : Bool :=
  decide (2 ≤ agentNeighbors size world_map pixel.1 pixel.2)

/-- The `World` object of the source.  `state` / `agent_position`
(the projection `_update_position_state` maintains) are derived data and
carry no game logic, so they are not part of the embedded state. -/
structure World where
  size : Int
  nb_agents : Nat
  nb_targets : Nat
  seed : Int
  targets_alive : Int
  map : GameMap
  agents : List (Nat × Int × Int)
  targets : List (Int × Int)

/-- Dict lookup `self.agents[agent_id]` (first entry with the given key). -/
def lookupAgent : List (Nat × Int × Int) → Nat → Option (Int × Int)
  | [], _ => none
  | e :: t, k => if e.1 = k then some e.2 else lookupAgent t k

/-- Dict update `agent.position = ...` for the agent with key `k`. -/
def setAgent (l : List (Nat × Int × Int)) (k : Nat) (p : Int × Int) :
    List (Nat × Int × Int) :=
  l.map (fun e => if e.1 = k then (k, p) else e)

/-- Body of `World._update_action` once the agent has been fetched:
the four guarded moves.  `action` codes: 0 NOOP, 1 UP, 2 DOWN, 3 LEFT,
4 RIGHT; any other value matches no branch and does nothing. -/
def moveAgent (w : World) (agent_id : Nat) (pos : Int × Int) (action : Int) : World :=
  if action = 1 then
    if pos.1 - 1 > 0 ∧ w.map (pos.1 - 1) pos.2 = 0 then
      { w with
        map := mset (mset w.map (pos.1 - 1) pos.2 1) pos.1 pos.2 0
        agents := setAgent w.agents agent_id (pos.1 - 1, pos.2) }
    else w
  else if action = 2 then
    if pos.1 + 1 < w.size ∧ w.map (pos.1 + 1) pos.2 = 0 then
      { w with
        map := mset (mset w.map (pos.1 + 1) pos.2 1) pos.1 pos.2 0
        agents := setAgent w.agents agent_id (pos.1 + 1, pos.2) }
    else w
  else if action = 3 then
    if pos.2 - 1 > 0 ∧ w.map pos.1 (pos.2 - 1) = 0 then
      { w with
        map := mset (mset w.map pos.1 (pos.2 - 1) 1) pos.1 pos.2 0
        agents := setAgent w.agents agent_id (pos.1, pos.2 - 1) }
    else w
  else if action = 4 then
    if pos.2 + 1 < w.size ∧ w.map pos.1 (pos.2 + 1) = 0 then
      { w with
        map := mset (mset w.map pos.1 (pos.2 + 1) 1) pos.1 pos.2 0
        agents := setAgent w.agents agent_id (pos.1, pos.2 + 1) }
    else w
  else w

/-- `World._update_action` for an agent that exists (an unknown id raises
`KeyError` in the source; that path is modelled in `runJoint`). -/
def updateAction (w : World) (action : Int) (agent_id : Nat) : World :=
  match lookupAgent w.agents agent_id with
  | some pos => moveAgent w agent_id pos action
  | none => w

/-- One step of the `_update_map` double loop at cell `(i, j)`. -/
def scanCell (w : World) (i j : Int) : World :=
  if w.map i j = 2 ∧ agent_capture (i, j) w.size w.map = true then
    { w with map := mset w.map i j 0, targets_alive := w.targets_alive - 1 }
  else w

/-- The `_update_map` double loop over an explicit list of cells. -/
def scanList : List (Int × Int) → World → World
  | [], w => w
  | p :: t, w => scanList t (scanCell w p.1 p.2)

/-- `World._update_map`: scan every cell in row-major order. -/
def update_map (w : World) : World :=
  scanList (cellList w.size) w

/-- The per-agent loop of `World.update`.  The joint action is the ordered
list of the dict's (agent key, action) items.  An unknown key raises
`KeyError` inside `_update_action`; the pair returned is the state at that
moment together with `false`. -/
def runJoint : World → List (Nat × Int) → World × Bool
  | w, [] => (w, true)
  | w, (k, a) :: t =>
    match lookupAgent w.agents k with
    | some pos => runJoint (moveAgent w k pos a) t
    | none => (w, false)

/-- `World.update`: all per-agent moves, then the capture scan.  When a
move raises (unknown agent), the scan does not run and the partially
mutated state escapes with the exception. -/
def update (w : World) (joint_action : List (Nat × Int)) : World × Bool :=
  match runJoint w joint_action with
  | (w1, true) => (update_map w1, true)
  | (w1, false) => (w1, false)

/-- Sequential application of `_update_action` calls (used to describe the
prefix of a tick that completed before an exception). -/
def applyMoves : World → List (Nat × Int) → World
  | w, [] => w
  | w, q :: t => applyMoves (updateAction w q.2 q.1) t

/-- A whole episode: `reset` already performed, then a sequence of
`update` calls (the state the object holds after each call, whether or
not the call raised). -/
def runUpdates : World → List (List (Nat × Int)) → World
  | w, [] => w
  | w, ja :: t => runUpdates (update w ja).1 t

/-- `all_positions` of `reset`: `[(i, j) for j in range(1, size-1)
for i in range(1, size-1)]` (column-major: `j` is the outer loop). -/
def interiorList (S : Int) : List (Int × Int) :=
  (pairGrid (S - 2).toNat (S - 2).toNat).map (fun p => ((p.2 : Int) + 1, (p.1 : Int) + 1))

/-- The placement loops `for pos in ...: self.map[pos] = v`. -/
def setAll : List (Int × Int) → Nat → GameMap → GameMap
  | [], _, m => m
  | p :: t, v, m => setAll t v (mset m p.1 p.2 v)

/-- `agents_pos` of `reset`: the first `nb_agents` shuffled interior cells. -/
def agentsPos (w : World) (ridx : List Nat) : List (Int × Int) :=
  (List.range w.nb_agents).map
    (fun i => (interiorList w.size).getD (ridx.getD i 0) (0, 0))

/-- `targets_pos` of `reset`: the next `nb_targets` shuffled interior cells. -/
def targetsPos (w : World) (ridx : List Nat) : List (Int × Int) :=
  (List.range w.nb_targets).map
    (fun i => (interiorList w.size).getD (ridx.getD (w.nb_agents + i) 0) (0, 0))

/-- `World.reset` up to (but not including) the trailing `_update_map`
call: wipe the grid, pick the first `nb_agents` shuffled interior cells
for agents and the next `nb_targets` for targets, write them to the map
(agents first, targets second), rebuild the agent dict and target list,
restore `targets_alive = nb_targets`.  `ridx` is the result of
`np.random.shuffle(np.arange((size-2)**2))`. -/
def resetPlace (w : World) (ridx : List Nat) : World :=
  { w with
    targets_alive := (w.nb_targets : Int)
    map := setAll (targetsPos w ridx) 2 (setAll (agentsPos w ridx) 1 (fun _ _ => 0))
    agents := (List.range w.nb_agents).map
      (fun i => (i + 1, (agentsPos w ridx).getD i (0, 0)))
    targets := targetsPos w ridx }

/-- `World.reset`: placement followed by the capture scan. -/
def reset (w : World) (ridx : List Nat) : World :=
  update_map (resetPlace w ridx)

/-- Number of cells the capture scan would remove from grid `m`:
cells marked target whose orthogonal agent-neighbour count is at least 2. -/
def capturedCount (S : Int) (m : GameMap) : Nat :=
  (cellList S).countP
    (fun p => decide (m p.1 p.2 = 2 ∧ agent_capture (p.1, p.2) S m = true))

/-- Concrete 4×4 world: agents with ids 1, 2 at (1,2) and (3,2), a target
at (2,2) with two orthogonal agent neighbours. -/
def cw1 : World :=
  { size := 4, nb_agents := 2, nb_targets := 1, seed := 0, targets_alive := 1,
    map := fun a b =>
      if (a = 1 ∧ b = 2) ∨ (a = 3 ∧ b = 2) then 1
      else if a = 2 ∧ b = 2 then 2 else 0,
    agents := [(1, (1, 2)), (2, (3, 2))], targets := [(2, 2)] }

/-- Concrete 4×4 world: a single agent with id 1 at (2,2), empty elsewhere. -/
def cw2 : World :=
  { size := 4, nb_agents := 1, nb_targets := 0, seed := 0, targets_alive := 0,
    map := fun a b => if a = 2 ∧ b = 2 then 1 else 0,
    agents := [(1, (2, 2))], targets := [] }

/-- Concrete 4×4 world: a single agent with id 1 at (2,1), one step above
the bottom border row 3. -/
def cw3 : World :=
  { size := 4, nb_agents := 1, nb_targets := 0, seed := 0, targets_alive := 0,
    map := fun a b => if a = 2 ∧ b = 1 then 1 else 0,
    agents := [(1, (2, 1))], targets := [] }

/-- Concrete 4×4 configuration before `reset` (one agent, one target). -/
def cw4 : World :=
  { size := 4, nb_agents := 1, nb_targets := 1, seed := 0, targets_alive := 1,
    map := fun _ _ => 0, agents := [], targets := [] }

/-- A shuffle result for `cw4`: the identity permutation of 0..3. -/
def ridx4 : List Nat := [0, 1, 2, 3]

/-- Concrete 5×5 configuration before `reset`: two agents and one target. -/
def cw8 : World :=
  { size := 5, nb_agents := 2, nb_targets := 1, seed := 0, targets_alive := 1,
    map := fun _ _ => 0, agents := [], targets := [] }

/-- A shuffle result placing the agents at (1,2) and (3,2) and the target
between them at (2,2): interior index 3 is (1,2), 5 is (3,2), 4 is (2,2). -/
def ridx8 : List Nat := [3, 5, 4, 0, 1, 2, 6, 7, 8]

/-- Concrete 4×4 world: a single agent with id 1 at (1,1), cell (1,2) free. -/
def cw9 : World :=
  { size := 4, nb_agents := 1, nb_targets := 0, seed := 0, targets_alive := 0,
    map := fun a b => if a = 1 ∧ b = 1 then 1 else 0,
    agents := [(1, (1, 1))], targets := [] }

/-- Concrete 5×5 configuration with seed 42 (one agent, one target). -/
def w7a : World :=
  { size := 5, nb_agents := 1, nb_targets := 1, seed := 42, targets_alive := 1,
    map := fun _ _ => 0, agents := [], targets := [] }

/-- Same configuration as `w7a` but with seed 43. -/
def w7b : World :=
  { size := 5, nb_agents := 1, nb_targets := 1, seed := 43, targets_alive := 1,
    map := fun _ _ => 0, agents := [], targets := [] }

/-- One possible shuffle result for a 3×3 interior. -/
def r7a : List Nat := [0, 1, 2, 3, 4, 5, 6, 7, 8]

/-- Another possible shuffle result, differing in the first entry. -/
def r7b : List Nat := [1, 0, 2, 3, 4, 5, 6, 7, 8]

/-- The state invariant maintained by the game loop: the number of target
cells on the grid equals `targets_alive` (which is at most `nb_targets`),
agent dict entries have pairwise distinct keys and pairwise distinct
positions, and every stored agent position is an on-grid cell marked 1. -/
def InvW (w : World) : Prop :=
  (countVal w.size w.map 2 : Int) = w.targets_alive ∧
  w.targets_alive ≤ (w.nb_targets : Int) ∧
  List.Pairwise (fun e e' : Nat × Int × Int => e.1 ≠ e'.1 ∧ e.2 ≠ e'.2) w.agents ∧
  (∀ e ∈ w.agents, (0 < e.2.1 ∧ e.2.1 < w.size ∧ 0 < e.2.2 ∧ e.2.2 < w.size) ∧
    w.map e.2.1 e.2.2 = 1)

/-! ### Basic grid lemmas -/

theorem mset_apply (m : GameMap) (i j : Int) (v : Nat) (a b : Int) :
    mset m i j v a b = if a = i ∧ b = j then v else m a b := rfl

theorem mset_same (m : GameMap) (i j : Int) (v : Nat) : mset m i j v i j = v := by
  simp [mset]

theorem mset_ne (m : GameMap) (i j : Int) (v : Nat) {a b : Int}
    (h : ¬(a = i ∧ b = j)) : mset m i j v a b = m a b := by
  simp only [mset, if_neg h]

theorem mem_pairGrid (r c : Nat) (p : Nat × Nat) :
    p ∈ pairGrid r c ↔ p.1 < r ∧ p.2 < c := by
  induction r with
  | zero => simp [pairGrid]
  | succ n ih =>
    simp only [pairGrid, List.mem_append, ih, List.mem_map, List.mem_range]
    constructor
    · rintro (⟨h1, h2⟩ | ⟨b, hb, rfl⟩) <;> omega
    · rintro ⟨h1, h2⟩
      rcases Nat.lt_or_ge p.1 n with h | h
      · exact Or.inl ⟨h, h2⟩
      · refine Or.inr ⟨p.2, h2, ?_⟩
        have hn : p.1 = n := by omega
        cases p
        simp_all

theorem nodup_pairGrid (r c : Nat) : (pairGrid r c).Nodup := by
  induction r with
  | zero => simp [pairGrid]
  | succ n ih =>
    simp only [pairGrid]
    rw [List.nodup_append]
    refine ⟨ih, ?_, ?_⟩
    · exact (List.nodup_range c).map_on (by intro x _ y _ h; simpa using h)
    · intro p hp hq
      rw [mem_pairGrid] at hp
      rcases List.mem_map.1 hq with ⟨b, _, rfl⟩
      omega

theorem length_pairGrid (r c : Nat) : (pairGrid r c).length = r * c := by
  induction r with
  | zero => simp [pairGrid]
  | succ n ih => simp [pairGrid, ih, Nat.succ_mul]

theorem mem_cellList (S : Int) (p : Int × Int) :
    p ∈ cellList S ↔ 0 ≤ p.1 ∧ p.1 < S ∧ 0 ≤ p.2 ∧ p.2 < S := by
  simp only [cellList, List.mem_map]
  constructor
  · rintro ⟨q, hq, rfl⟩
    rw [mem_pairGrid] at hq
    constructor
    · exact Int.ofNat_nonneg q.1
    refine ⟨?_, Int.ofNat_nonneg q.2, ?_⟩ <;> omega
  · rintro ⟨h1, h2, h3, h4⟩
    refine ⟨(p.1.toNat, p.2.toNat), ?_, ?_⟩
    · rw [mem_pairGrid]; constructor <;> simp <;> omega
    · cases p with
      | mk a b => simp only [Prod.mk.injEq]; constructor <;> simp <;> omega

theorem nodup_cellList (S : Int) : (cellList S).Nodup := by
  refine (nodup_pairGrid S.toNat S.toNat).map_on ?_
  intro x _ y _ h
  cases x; cases y
  simp only [Prod.mk.injEq] at h ⊢
  omega

/-! ### Counting lemmas -/

theorem countP_update_point {α : Type} (l : List α) (x : α) (p q : α → Bool)
    (hnd : l.Nodup) (hx : x ∈ l) (hpq : ∀ y ∈ l, y ≠ x → p y = q y) :
    l.countP p + (if q x = true then 1 else 0)
      = l.countP q + (if p x = true then 1 else 0) := by
  induction l with
  | nil => cases hx
  | cons a t ih =>
    rw [List.nodup_cons] at hnd
    rcases List.mem_cons.1 hx with rfl | hxt
    · have ht : t.countP p = t.countP q := by
        apply List.countP_congr
        intro y hy
        rw [hpq y (List.mem_cons_of_mem _ hy) (fun h => hnd.1 (h ▸ hy))]
      rw [List.countP_cons, List.countP_cons, ht]
      cases hqa : q x <;> cases hpa : p x <;> simp [hqa, hpa]
    · have hax : a ≠ x := fun h => hnd.1 (h ▸ hxt)
      have hpa : p a = q a := hpq a (List.mem_cons_self a t) hax
      have := ih hnd.2 hxt (fun y hy => hpq y (List.mem_cons_of_mem _ hy))
      rw [List.countP_cons, List.countP_cons, hpa]
      cases hqa : q a <;> simp [hqa] <;> omega

theorem countVal_mset (S : Int) (m : GameMap) (i j : Int) (v t : Nat)
    (hi : 0 ≤ i) (hi2 : i < S) (hj : 0 ≤ j) (hj2 : j < S) :
    countVal S (mset m i j v) t + (if m i j = t then 1 else 0)
      = countVal S m t + (if v = t then 1 else 0) := by
  have hx : ((i, j) : Int × Int) ∈ cellList S := by
    rw [mem_cellList]; exact ⟨hi, hi2, hj, hj2⟩
  have h := countP_update_point (cellList S) (i, j)
    (fun p => decide (mset m i j v p.1 p.2 = t))
    (fun p => decide (m p.1 p.2 = t))
    (nodup_cellList S) hx ?_
  · simpa [countVal, mset] using h
  · intro y _ hy
    have : ¬(y.1 = i ∧ y.2 = j) := by
      intro ⟨h1, h2⟩
      exact hy (by cases y; simp_all)
    simp [mset_ne m i j v this]

/-! ### Capture-scan lemmas -/

theorem scanCell_size (w : World) (i j : Int) : (scanCell w i j).size = w.size := by
  unfold scanCell; split <;> rfl

theorem scanCell_agents (w : World) (i j : Int) : (scanCell w i j).agents = w.agents := by
  unfold scanCell; split <;> rfl

theorem scanCell_nb_targets (w : World) (i j : Int) :
    (scanCell w i j).nb_targets = w.nb_targets := by
  unfold scanCell; split <;> rfl

theorem scanCell_nb_agents (w : World) (i j : Int) :
    (scanCell w i j).nb_agents = w.nb_agents := by
  unfold scanCell; split <;> rfl

theorem scanCell_targets (w : World) (i j : Int) : (scanCell w i j).targets = w.targets := by
  unfold scanCell; split <;> rfl

theorem scanCell_alive (w : World) (i j : Int) :
    (scanCell w i j).targets_alive = w.targets_alive -
      (if w.map i j = 2 ∧ agent_capture (i, j) w.size w.map = true then 1 else 0) := by
  unfold scanCell; split
  · simp_all
  · simp_all

theorem scanCell_map_ne (w : World) (i j : Int) {a b : Int} (h : ¬(a = i ∧ b = j)) :
    (scanCell w i j).map a b = w.map a b := by
  unfold scanCell; split
  · exact mset_ne _ _ _ _ h
  · rfl

theorem scanCell_map_cases (w : World) (i j a b : Int) :
    (scanCell w i j).map a b = w.map a b ∨
      ((scanCell w i j).map a b = 0 ∧ w.map a b = 2) := by
  unfold scanCell; split
  · rename_i hcond
    by_cases hab : a = i ∧ b = j
    · obtain ⟨rfl, rfl⟩ := hab
      exact Or.inr ⟨mset_same _ _ _ _, hcond.1⟩
    · exact Or.inl (mset_ne _ _ _ _ hab)
  · exact Or.inl rfl

theorem scanCell_agentcell (w : World) (i j a b : Int) :
    (scanCell w i j).map a b = 1 ↔ w.map a b = 1 := by
  rcases scanCell_map_cases w i j a b with h | ⟨h1, h2⟩
  · rw [h]
  · rw [h1, h2]; omega

theorem agentNeighbors_congr {m m' : GameMap} (S : Int)
    (h : ∀ a b, m a b = 1 ↔ m' a b = 1) (i j : Int) :
    agentNeighbors S m i j = agentNeighbors S m' i j := by
  unfold agentNeighbors
  apply List.countP_congr
  intro y _
  simp only [decide_eq_true_eq]
  constructor
  · rintro ⟨h1, h2, h3, h4, h5⟩
    exact ⟨h1, h2, h3, h4, (h y.1 y.2).1 h5⟩
  · rintro ⟨h1, h2, h3, h4, h5⟩
    exact ⟨h1, h2, h3, h4, (h y.1 y.2).2 h5⟩

theorem agent_capture_congr {m m' : GameMap} (p : Int × Int) (S : Int)
    (h : ∀ a b, m a b = 1 ↔ m' a b = 1) :
    agent_capture p S m = agent_capture p S m' := by
  unfold agent_capture
  rw [agentNeighbors_congr S h]

theorem scanList_size (l : List (Int × Int)) (w : World) : (scanList l w).size = w.size := by
  induction l generalizing w with
  | nil => rfl
  | cons p t ih => rw [scanList, ih, scanCell_size]

theorem scanList_agents (l : List (Int × Int)) (w : World) :
    (scanList l w).agents = w.agents := by
  induction l generalizing w with
  | nil => rfl
  | cons p t ih => rw [scanList, ih, scanCell_agents]

theorem scanList_nb_targets (l : List (Int × Int)) (w : World) :
    (scanList l w).nb_targets = w.nb_targets := by
  induction l generalizing w with
  | nil => rfl
  | cons p t ih => rw [scanList, ih, scanCell_nb_targets]

theorem scanList_nb_agents (l : List (Int × Int)) (w : World) :
    (scanList l w).nb_agents = w.nb_agents := by
  induction l generalizing w with
  | nil => rfl
  | cons p t ih => rw [scanList, ih, scanCell_nb_agents]

theorem scanList_targets (l : List (Int × Int)) (w : World) :
    (scanList l w).targets = w.targets := by
  induction l generalizing w with
  | nil => rfl
  | cons p t ih => rw [scanList, ih, scanCell_targets]

theorem scanList_map_cases (l : List (Int × Int)) (w : World) (a b : Int) :
    (scanList l w).map a b = w.map a b ∨
      ((scanList l w).map a b = 0 ∧ w.map a b = 2) := by
  induction l generalizing w with
  | nil => exact Or.inl rfl
  | cons q t ih =>
    rw [scanList]
    rcases ih (scanCell w q.1 q.2) with h | ⟨h1, h2⟩ <;>
      rcases scanCell_map_cases w q.1 q.2 a b with h' | ⟨h1', h2'⟩
    · exact Or.inl (h.trans h')
    · exact Or.inr ⟨h.trans h1', h2'⟩
    · exact Or.inr ⟨h1, h' ▸ h2⟩
    · exact Or.inr ⟨h1, h2'⟩

theorem scanList_agentcell (l : List (Int × Int)) (w : World) (a b : Int) :
    (scanList l w).map a b = 1 ↔ w.map a b = 1 := by
  induction l generalizing w with
  | nil => exact Iff.rfl
  | cons q t ih =>
    rw [scanList]
    exact (ih (scanCell w q.1 q.2)).trans (scanCell_agentcell w q.1 q.2 a b)

theorem scanList_map_notmem (l : List (Int × Int)) (w : World) (p : Int × Int)
    (h : p ∉ l) : (scanList l w).map p.1 p.2 = w.map p.1 p.2 := by
  induction l generalizing w with
  | nil => rfl
  | cons q t ih =>
    rw [scanList]
    rw [ih (scanCell w q.1 q.2) (fun hm => h (List.mem_cons_of_mem _ hm))]
    apply scanCell_map_ne
    intro ⟨h1, h2⟩
    apply h
    have : p = q := by cases p; cases q; simp_all
    rw [this]
    exact List.mem_cons_self q t

/-- Master lemma of the capture scan: each target cell in the scanned list
is cleared exactly when its orthogonal agent count in the pre-scan grid is
at least 2, and `targets_alive` drops by exactly the number of such cells. -/
theorem scanList_spec (l : List (Int × Int)) (w : World) (hnd : l.Nodup) :
    (∀ p ∈ l, w.map p.1 p.2 = 2 →
      (scanList l w).map p.1 p.2 =
        if agent_capture p w.size w.map = true then 0 else 2) ∧
    (scanList l w).targets_alive = w.targets_alive -
      ((l.countP (fun p =>
        decide (w.map p.1 p.2 = 2 ∧ agent_capture p w.size w.map = true)) : Nat) : Int) := by
  induction l generalizing w with
  | nil => simp [scanList]
  | cons q t ih =>
    rw [List.nodup_cons] at hnd
    obtain ⟨hqt, hndt⟩ := hnd
    have hsize : (scanCell w q.1 q.2).size = w.size := scanCell_size w q.1 q.2
    have hagent : ∀ a b, ((scanCell w q.1 q.2).map a b = 1) ↔ (w.map a b = 1) :=
      fun a b => scanCell_agentcell w q.1 q.2 a b
    have hcap : ∀ p : Int × Int,
        agent_capture p (scanCell w q.1 q.2).size (scanCell w q.1 q.2).map =
          agent_capture p w.size w.map := by
      intro p
      rw [hsize]
      exact (agent_capture_congr p w.size hagent)
    have hmapt : ∀ p ∈ t, (scanCell w q.1 q.2).map p.1 p.2 = w.map p.1 p.2 := by
      intro p hp
      apply scanCell_map_ne
      intro ⟨h1, h2⟩
      apply hqt
      have : p = q := by cases p; cases q; simp_all
      rw [← this]
      exact hp
    obtain ⟨ih1, ih2⟩ := ih (scanCell w q.1 q.2) hndt
    constructor
    · intro p hp hp2
      rcases List.mem_cons.1 hp with rfl | hpt
      · rw [scanList, scanList_map_notmem t _ p hqt]
        by_cases hc : agent_capture p w.size w.map = true
        · rw [if_pos hc]
          unfold scanCell
          rw [if_pos ⟨hp2, hc⟩]
          exact mset_same _ _ _ _
        · rw [if_neg hc]
          unfold scanCell
          rw [if_neg (fun h => hc h.2)]
          exact hp2
      · rw [scanList]
        rw [ih1 p hpt ((hmapt p hpt).trans hp2), hcap p]
    · rw [scanList, ih2, scanCell_alive]
      have hcnt : t.countP (fun p =>
            decide ((scanCell w q.1 q.2).map p.1 p.2 = 2 ∧
              agent_capture p (scanCell w q.1 q.2).size (scanCell w q.1 q.2).map = true)) =
          t.countP (fun p =>
            decide (w.map p.1 p.2 = 2 ∧ agent_capture p w.size w.map = true)) := by
        apply List.countP_congr
        intro p hp
        simp only [decide_eq_true_eq]
        rw [hmapt p hp, hcap p]
      rw [hcnt, List.countP_cons]
      simp only [decide_eq_true_eq]
      push_cast
      split <;> ring

/-- If no scanned cell is a capturable target, the scan is the identity. -/
theorem scanList_noop (l : List (Int × Int)) (w : World)
    (h : ∀ p ∈ l, ¬(w.map p.1 p.2 = 2 ∧ agent_capture p w.size w.map = true)) :
    scanList l w = w := by
  induction l with
  | nil => rfl
  | cons q t ih =>
    rw [scanList]
    have hq : scanCell w q.1 q.2 = w := by
      unfold scanCell
      exact if_neg (h q (List.mem_cons_self q t))
    rw [hq]
    exact ih (fun p hp => h p (List.mem_cons_of_mem _ hp))

theorem countP_split {α : Type} (l : List α) (x y : α → Bool) :
    l.countP x = l.countP (fun a => x a && y a) + l.countP (fun a => x a && !y a) := by
  induction l with
  | nil => simp
  | cons a t ih =>
    rw [List.countP_cons, List.countP_cons, List.countP_cons, ih]
    cases hx : x a <;> cases hy : y a <;> simp [hx, hy] <;> omega

/-- `_update_map` on the full grid: pointwise effect on every target cell
(in the pre-scan grid) and the exact `targets_alive` decrement. -/
theorem update_map_spec (w : World) :
    (∀ p ∈ cellList w.size, w.map p.1 p.2 = 2 →
      (update_map w).map p.1 p.2 =
        if agent_capture p w.size w.map = true then 0 else 2) ∧
    (update_map w).targets_alive = w.targets_alive - (capturedCount w.size w.map : Int) := by
  have h := scanList_spec (cellList w.size) w (nodup_cellList w.size)
  exact ⟨h.1, h.2⟩

/-- A cell of the post-scan grid is a target iff it was a target with
fewer than 2 orthogonal agent neighbours before the scan. -/
theorem update_map_target_iff (w : World) (p : Int × Int) (hp : p ∈ cellList w.size) :
    (update_map w).map p.1 p.2 = 2 ↔
      (w.map p.1 p.2 = 2 ∧ ¬agent_capture p w.size w.map = true) := by
  constructor
  · intro h
    have hold : w.map p.1 p.2 = 2 := by
      rcases scanList_map_cases (cellList w.size) w p.1 p.2 with h' | ⟨h1, h2⟩
      · rw [← h']; exact h
      · exact h2
    refine ⟨hold, ?_⟩
    intro hc
    have := (update_map_spec w).1 p hp hold
    rw [if_pos hc] at this
    rw [this] at h
    cases h
  · rintro ⟨h2, hc⟩
    have := (update_map_spec w).1 p hp h2
    rwa [if_neg hc] at this

/-- The post-scan count of target cells: exactly the captured ones are gone. -/
theorem update_map_count2 (w : World) :
    countVal w.size (update_map w).map 2 + capturedCount w.size w.map
      = countVal w.size w.map 2 := by
  have hnew : countVal w.size (update_map w).map 2 =
      (cellList w.size).countP
        (fun p => decide (w.map p.1 p.2 = 2) && !agent_capture p w.size w.map) := by
    apply List.countP_congr
    intro p hp
    simp only [decide_eq_true_eq, Bool.and_eq_true, Bool.not_eq_true', decide_eq_true_iff]
    rw [update_map_target_iff w p hp]
    constructor
    · rintro ⟨h1, h2⟩
      exact ⟨h1, by simpa using h2⟩
    · rintro ⟨h1, h2⟩
      exact ⟨h1, by simp [h2]⟩
  have hcap : capturedCount w.size w.map =
      (cellList w.size).countP
        (fun p => decide (w.map p.1 p.2 = 2) && agent_capture p w.size w.map) := by
    apply List.countP_congr
    intro p hp
    simp only [decide_eq_true_eq, Bool.and_eq_true, decide_eq_true_iff]
  have hsplit := countP_split (cellList w.size)
    (fun p => decide (w.map p.1 p.2 = 2)) (fun p => agent_capture p w.size w.map)
  have hold : countVal w.size w.map 2 =
      (cellList w.size).countP (fun p => decide (w.map p.1 p.2 = 2)) := rfl
  rw [hnew, hcap, hold, hsplit]
  omega

/-- Claim C6: the capture scan is idempotent — for every grid state,
running `_update_map` twice in a row with no intervening moves leaves the
whole world (grid and `targets_alive` included) exactly as after the first
run; the second run removes no target and performs no decrement. -/
theorem update_map_idempotent (w : World) : update_map (update_map w) = update_map w := by
  have hsz : (update_map w).size = w.size := scanList_size _ w
  have hcap : ∀ p : Int × Int,
      agent_capture p (update_map w).size (update_map w).map =
        agent_capture p w.size w.map := by
    intro p
    rw [hsz]
    exact agent_capture_congr p w.size (fun a b => scanList_agentcell _ w a b)
  have hnone : ∀ p ∈ cellList (update_map w).size,
      ¬((update_map w).map p.1 p.2 = 2 ∧
        agent_capture p (update_map w).size (update_map w).map = true) := by
    intro p hp ⟨h2, hc⟩
    rw [hsz] at hp
    have := (update_map_target_iff w p hp).1 h2
    rw [hcap p] at hc
    exact this.2 hc
  exact scanList_noop (cellList (update_map w).size) (update_map w) hnone

/-! ### Agent-dict and movement lemmas -/

theorem lookupAgent_setAgent_self (l : List (Nat × Int × Int)) (k : Nat)
    (v p : Int × Int) (h : lookupAgent l k = some v) :
    lookupAgent (setAgent l k p) k = some p := by
  induction l with
  | nil => cases h
  | cons e t ih =>
    unfold setAgent at *
    unfold lookupAgent at h
    by_cases he : e.1 = k
    · simp only [List.map_cons, if_pos he]
      unfold lookupAgent
      simp
    · simp only [List.map_cons, if_neg he]
      unfold lookupAgent
      rw [if_neg he]
      rw [if_neg he] at h
      exact ih h

theorem lookupAgent_mem (l : List (Nat × Int × Int)) (k : Nat) (v : Int × Int)
    (h : lookupAgent l k = some v) : (k, v) ∈ l := by
  induction l with
  | nil => cases h
  | cons e t ih =>
    unfold lookupAgent at h
    by_cases he : e.1 = k
    · rw [if_pos he] at h
      have hkv : (k, v) = e := by cases e; simp_all
      rw [hkv]
      exact List.mem_cons_self e t
    · rw [if_neg he] at h
      exact List.mem_cons_of_mem _ (ih h)

theorem setAgent_keys (l : List (Nat × Int × Int)) (k : Nat) (p : Int × Int) :
    (setAgent l k p).map Prod.fst = l.map Prod.fst := by
  unfold setAgent
  rw [List.map_map]
  apply List.map_congr_left
  intro e _
  by_cases h : e.1 = k <;> simp [h]

theorem lookupAgent_none_iff (l : List (Nat × Int × Int)) (x : Nat) :
    lookupAgent l x = none ↔ x ∉ l.map Prod.fst := by
  induction l with
  | nil => simp [lookupAgent]
  | cons e t ih =>
    unfold lookupAgent
    by_cases he : e.1 = x
    · simp [he]
    · simp only [if_neg he, ih, List.map_cons, List.mem_cons]
      constructor
      · intro h hmem
        rcases hmem with h1 | h2
        · exact he h1.symm
        · exact h h2
      · intro h
        exact fun hm => h (Or.inr hm)

theorem moveAgent_size (w : World) (k : Nat) (pos : Int × Int) (a : Int) :
    (moveAgent w k pos a).size = w.size := by
  unfold moveAgent; split_ifs <;> rfl

theorem moveAgent_nb_agents (w : World) (k : Nat) (pos : Int × Int) (a : Int) :
    (moveAgent w k pos a).nb_agents = w.nb_agents := by
  unfold moveAgent; split_ifs <;> rfl

theorem moveAgent_nb_targets (w : World) (k : Nat) (pos : Int × Int) (a : Int) :
    (moveAgent w k pos a).nb_targets = w.nb_targets := by
  unfold moveAgent; split_ifs <;> rfl

theorem moveAgent_alive (w : World) (k : Nat) (pos : Int × Int) (a : Int) :
    (moveAgent w k pos a).targets_alive = w.targets_alive := by
  unfold moveAgent; split_ifs <;> rfl

theorem moveAgent_targets (w : World) (k : Nat) (pos : Int × Int) (a : Int) :
    (moveAgent w k pos a).targets = w.targets := by
  unfold moveAgent; split_ifs <;> rfl

theorem moveAgent_keys (w : World) (k : Nat) (pos : Int × Int) (a : Int) :
    (moveAgent w k pos a).agents.map Prod.fst = w.agents.map Prod.fst := by
  unfold moveAgent; split_ifs <;> simp [setAgent_keys]

/-! ### Placement lemmas -/

theorem mem_interiorList (S : Int) (p : Int × Int) :
    p ∈ interiorList S ↔
      ∃ a b : Nat, a < (S - 2).toNat ∧ b < (S - 2).toNat ∧
        p = (((b : Int) + 1, (a : Int) + 1) : Int × Int) := by
  simp only [interiorList, List.mem_map]
  constructor
  · rintro ⟨q, hq, rfl⟩
    rw [mem_pairGrid] at hq
    exact ⟨q.1, q.2, hq.1, hq.2, rfl⟩
  · rintro ⟨a, b, ha, hb, rfl⟩
    exact ⟨(a, b), (mem_pairGrid _ _ _).2 ⟨ha, hb⟩, rfl⟩

theorem interiorList_bounds (S : Int) (p : Int × Int) (hp : p ∈ interiorList S) :
    1 ≤ p.1 ∧ p.1 ≤ S - 2 ∧ 1 ≤ p.2 ∧ p.2 ≤ S - 2 := by
  rcases (mem_interiorList S p).1 hp with ⟨a, b, ha, hb, rfl⟩
  simp only
  omega

theorem interiorList_subset_cellList (S : Int) (p : Int × Int)
    (hp : p ∈ interiorList S) : p ∈ cellList S := by
  have h := interiorList_bounds S p hp
  rw [mem_cellList]
  omega

theorem length_interiorList (S : Int) :
    (interiorList S).length = (S - 2).toNat * (S - 2).toNat := by
  simp [interiorList, length_pairGrid]

theorem nodup_interiorList (S : Int) : (interiorList S).Nodup := by
  refine (nodup_pairGrid _ _).map_on ?_
  intro x _ y _ h
  cases x; cases y
  simp only [Prod.mk.injEq] at h ⊢
  omega

theorem getD_mem {α : Type} (l : List α) (i : Nat) (d : α) (h : i < l.length) :
    l.getD i d ∈ l := by
  rw [List.getD_eq_getElem l d h]
  exact List.getElem_mem h

theorem nodup_getD_inj {α : Type} (l : List α) (d : α) (hnd : l.Nodup)
    {i j : Nat} (hi : i < l.length) (hj : j < l.length)
    (h : l.getD i d = l.getD j d) : i = j := by
  rw [List.getD_eq_getElem l d hi, List.getD_eq_getElem l d hj] at h
  exact (hnd.getElem_inj_iff).1 h

theorem getD_map_range {α : Type} (n : Nat) (f : Nat → α) (i : Nat) (d : α)
    (h : i < n) : ((List.range n).map f).getD i d = f i := by
  have hlen : i < ((List.range n).map f).length := by simpa using h
  rw [List.getD_eq_getElem _ d hlen, List.getElem_map, List.getElem_range]

theorem setAll_apply (ps : List (Int × Int)) (v : Nat) (m : GameMap) (a b : Int) :
    setAll ps v m a b = if (a, b) ∈ ps then v else m a b := by
  induction ps generalizing m with
  | nil => simp [setAll]
  | cons q t ih =>
    rw [setAll, ih]
    by_cases hqt : (a, b) ∈ t
    · rw [if_pos hqt, if_pos (List.mem_cons_of_mem _ hqt)]
    · rw [if_neg hqt]
      by_cases hq : (a, b) = q
      · rw [if_pos (hq ▸ List.mem_cons_self q t)]
        have : a = q.1 ∧ b = q.2 := by cases q; simp_all
        rw [mset_apply, if_pos this]
      · have hnotc : (a, b) ∉ q :: t := by
          intro hm
          rcases List.mem_cons.1 hm with h | h
          · exact hq h
          · exact hqt h
        rw [if_neg hnotc]
        apply mset_ne
        intro ⟨h1, h2⟩
        exact hq (by cases q; simp_all)

theorem countVal_zero_map (S : Int) (t : Nat) (ht : t ≠ 0) :
    countVal S (fun _ _ => 0) t = 0 := by
  rw [countVal, List.countP_eq_zero]
  intro p _
  simp
  omega

theorem setAll_count (S : Int) (ps : List (Int × Int)) (v t : Nat) (m : GameMap)
    (hnd : ps.Nodup) (hgrid : ∀ p ∈ ps, p ∈ cellList S)
    (hzero : ∀ p ∈ ps, m p.1 p.2 = 0) (ht : t ≠ 0) :
    countVal S (setAll ps v m) t = countVal S m t + (if v = t then ps.length else 0) := by
  induction ps generalizing m with
  | nil => simp [setAll]
  | cons q t' ih =>
    rw [List.nodup_cons] at hnd
    rw [setAll]
    have hqcell := (mem_cellList S q).1 (hgrid q (List.mem_cons_self q t'))
    have h1 := countVal_mset S m q.1 q.2 v t hqcell.1 hqcell.2.1 hqcell.2.2.1 hqcell.2.2.2
    rw [hzero q (List.mem_cons_self q t'), if_neg (fun h => ht h.symm)] at h1
    have hztail : ∀ p ∈ t', (mset m q.1 q.2 v) p.1 p.2 = 0 := by
      intro p hp
      rw [mset_ne]
      · exact hzero p (List.mem_cons_of_mem _ hp)
      · intro ⟨ha, hb⟩
        exact hnd.1 (by cases p; cases q; simp_all)
    rw [ih (mset m q.1 q.2 v) hnd.2
      (fun p hp => hgrid p (List.mem_cons_of_mem _ hp)) hztail]
    simp only [List.length_cons]
    by_cases hv : v = t
    · simp only [if_pos hv] at h1 ⊢
      omega
    · simp only [if_neg hv] at h1 ⊢
      omega

theorem entityPos_eq (w : World) (ridx : List Nat) :
    agentsPos w ridx ++ targetsPos w ridx
      = (List.range (w.nb_agents + w.nb_targets)).map
          (fun i => (interiorList w.size).getD (ridx.getD i 0) (0, 0)) := by
  rw [List.range_add, List.map_append, List.map_map]
  rw [agentsPos, targetsPos]
  rfl

theorem entityPos_nodup (w : World) (ridx : List Nat)
    (hbound : ∀ i, i < w.nb_agents + w.nb_targets →
      ridx.getD i 0 < (w.size - 2).toNat * (w.size - 2).toNat)
    (hinj : ∀ i, i < w.nb_agents + w.nb_targets →
      ∀ j, j < w.nb_agents + w.nb_targets → ridx.getD i 0 = ridx.getD j 0 → i = j) :
    (agentsPos w ridx ++ targetsPos w ridx).Nodup := by
  rw [entityPos_eq]
  refine (List.nodup_range _).map_on ?_
  intro x hx y hy hxy
  rw [List.mem_range] at hx hy
  refine hinj x hx y hy ?_
  refine nodup_getD_inj (interiorList w.size) (0, 0) (nodup_interiorList _) ?_ ?_ hxy
  · rw [length_interiorList]
    exact hbound x hx
  · rw [length_interiorList]
    exact hbound y hy

theorem entityPos_mem (w : World) (ridx : List Nat)
    (hbound : ∀ i, i < w.nb_agents + w.nb_targets →
      ridx.getD i 0 < (w.size - 2).toNat * (w.size - 2).toNat) :
    ∀ p ∈ agentsPos w ridx ++ targetsPos w ridx, p ∈ interiorList w.size := by
  rw [entityPos_eq]
  intro p hp
  rcases List.mem_map.1 hp with ⟨i, hi, rfl⟩
  rw [List.mem_range] at hi
  refine getD_mem _ _ _ ?_
  rw [length_interiorList]
  exact hbound i hi

theorem resetPlace_map (w : World) (ridx : List Nat) (a b : Int) :
    (resetPlace w ridx).map a b =
      if (a, b) ∈ targetsPos w ridx then 2
      else if (a, b) ∈ agentsPos w ridx then 1 else 0 := by
  show setAll (targetsPos w ridx) 2 (setAll (agentsPos w ridx) 1 (fun _ _ => 0)) a b = _
  rw [setAll_apply, setAll_apply]

theorem resetPlace_count (w : World) (ridx : List Nat)
    (hbound : ∀ i, i < w.nb_agents + w.nb_targets →
      ridx.getD i 0 < (w.size - 2).toNat * (w.size - 2).toNat)
    (hinj : ∀ i, i < w.nb_agents + w.nb_targets →
      ∀ j, j < w.nb_agents + w.nb_targets → ridx.getD i 0 = ridx.getD j 0 → i = j) :
    countVal w.size (resetPlace w ridx).map 1 = w.nb_agents ∧
    countVal w.size (resetPlace w ridx).map 2 = w.nb_targets := by
  have hnd := entityPos_nodup w ridx hbound hinj
  rw [List.nodup_append] at hnd
  obtain ⟨hndA, hndT, hdisj⟩ := hnd
  have hmem := entityPos_mem w ridx hbound
  have hgridA : ∀ p ∈ agentsPos w ridx, p ∈ cellList w.size := by
    intro p hp
    exact interiorList_subset_cellList _ p (hmem p (List.mem_append.2 (Or.inl hp)))
  have hgridT : ∀ p ∈ targetsPos w ridx, p ∈ cellList w.size := by
    intro p hp
    exact interiorList_subset_cellList _ p (hmem p (List.mem_append.2 (Or.inr hp)))
  have hzeroA : ∀ p ∈ agentsPos w ridx, (fun _ _ => (0 : Nat)) p.1 p.2 = 0 :=
    fun p _ => rfl
  have hc1A := setAll_count w.size (agentsPos w ridx) 1 1 (fun _ _ => 0)
    hndA hgridA hzeroA (by omega)
  have hc2A := setAll_count w.size (agentsPos w ridx) 1 2 (fun _ _ => 0)
    hndA hgridA hzeroA (by omega)
  rw [countVal_zero_map w.size 1 (by omega), if_pos rfl] at hc1A
  rw [countVal_zero_map w.size 2 (by omega), if_neg (by omega)] at hc2A
  have hzeroT : ∀ p ∈ targetsPos w ridx,
      (setAll (agentsPos w ridx) 1 (fun _ _ => 0)) p.1 p.2 = 0 := by
    intro p hp
    rw [setAll_apply]
    rw [if_neg]
    intro hmemA
    exact hdisj hmemA hp
  have hc1T := setAll_count w.size (targetsPos w ridx) 2 1
    (setAll (agentsPos w ridx) 1 (fun _ _ => 0)) hndT hgridT hzeroT (by omega)
  have hc2T := setAll_count w.size (targetsPos w ridx) 2 2
    (setAll (agentsPos w ridx) 1 (fun _ _ => 0)) hndT hgridT hzeroT (by omega)
  rw [if_neg (by omega)] at hc1T
  rw [if_pos rfl] at hc2T
  constructor
  · show countVal w.size
      (setAll (targetsPos w ridx) 2 (setAll (agentsPos w ridx) 1 (fun _ _ => 0))) 1
        = w.nb_agents
    rw [hc1T, hc1A]
    simp [agentsPos]
  · show countVal w.size
      (setAll (targetsPos w ridx) 2 (setAll (agentsPos w ridx) 1 (fun _ _ => 0))) 2
        = w.nb_targets
    rw [hc2T, hc2A]
    simp [targetsPos]

/-! ### Invariant preservation -/

theorem agentRel_symm :
    Symmetric (fun e e' : Nat × Int × Int => e.1 ≠ e'.1 ∧ e.2 ≠ e'.2) := by
  intro a b ⟨h1, h2⟩
  exact ⟨h1.symm, h2.symm⟩

theorem move_core_inv (w : World) (k : Nat) (pos d : Int × Int)
    (hlk : lookupAgent w.agents k = some pos) (hinv : InvW w)
    (hd1 : 0 < d.1) (hd2 : d.1 < w.size) (hd3 : 0 < d.2) (hd4 : d.2 < w.size)
    (hdpos : d ≠ pos) (hempty : w.map d.1 d.2 = 0) :
    InvW { w with
      map := mset (mset w.map d.1 d.2 1) pos.1 pos.2 0
      agents := setAgent w.agents k d } := by
  obtain ⟨hcnt, hbound, hpw, hcons⟩ := hinv
  have hmem : (k, pos) ∈ w.agents := lookupAgent_mem _ _ _ hlk
  have hposf := hcons (k, pos) hmem
  have hdpos' : ¬(pos.1 = d.1 ∧ pos.2 = d.2) := by
    intro ⟨h1, h2⟩
    exact hdpos (by cases d; cases pos; simp_all)
  have hforall := List.Pairwise.forall agentRel_symm hpw
  refine ⟨?_, hbound, ?_, ?_⟩
  · show (countVal w.size (mset (mset w.map d.1 d.2 1) pos.1 pos.2 0) 2 : Int)
      = w.targets_alive
    have h1 := countVal_mset w.size w.map d.1 d.2 1 2
      (le_of_lt hd1) hd2 (le_of_lt hd3) hd4
    rw [hempty, if_neg (by omega), if_neg (by omega)] at h1
    have h2 := countVal_mset w.size (mset w.map d.1 d.2 1) pos.1 pos.2 0 2
      (le_of_lt hposf.1.1) hposf.1.2.1 (le_of_lt hposf.1.2.2.1) hposf.1.2.2.2
    rw [mset_ne _ _ _ _ hdpos', hposf.2, if_neg (by omega), if_neg (by omega)] at h2
    omega
  · show List.Pairwise _ (setAgent w.agents k d)
    unfold setAgent
    refine List.pairwise_map.2 (hpw.imp_of_mem ?_)
    intro a b ha hb hab
    by_cases hak : a.1 = k <;> by_cases hbk : b.1 = k
    · exact absurd (hak.trans hbk.symm) hab.1
    · rw [if_pos hak, if_neg hbk]
      constructor
      · intro h
        exact hbk ((show k = b.1 from h).symm)
      · intro h
        have hdb : d = b.2 := h
        have hb2 := (hcons b hb).2
        rw [← hdb, hempty] at hb2
        omega
    · rw [if_neg hak, if_pos hbk]
      constructor
      · intro h
        exact hak (show a.1 = k from h)
      · intro h
        have hda : a.2 = d := h
        have ha2 := (hcons a ha).2
        rw [hda, hempty] at ha2
        omega
    · rw [if_neg hak, if_neg hbk]
      exact hab
  · intro e' he'
    rcases List.mem_map.1 he' with ⟨e, he, rfl⟩
    by_cases hek : e.1 = k
    · rw [if_pos hek]
      refine ⟨⟨hd1, hd2, hd3, hd4⟩, ?_⟩
      show mset (mset w.map d.1 d.2 1) pos.1 pos.2 0 d.1 d.2 = 1
      rw [mset_ne _ _ _ _ (fun h => hdpos' ⟨h.1.symm, h.2.symm⟩)]
      exact mset_same _ _ _ _
    · rw [if_neg hek]
      have he2 := hcons e he
      refine ⟨he2.1, ?_⟩
      have hene : e ≠ (k, pos) := fun h => hek (by rw [h])
      have hepos : e.2 ≠ pos := (hforall he hmem hene).2
      have hed : e.2 ≠ d := by
        intro h
        have := he2.2
        rw [h, hempty] at this
        omega
      show mset (mset w.map d.1 d.2 1) pos.1 pos.2 0 e.2.1 e.2.2 = 1
      rw [mset_ne _ _ _ _ (fun h => hepos (Prod.ext_iff.2 h)),
        mset_ne _ _ _ _ (fun h => hed (Prod.ext_iff.2 h))]
      exact he2.2

theorem moveAgent_inv (w : World) (k : Nat) (pos : Int × Int) (a : Int)
    (hlk : lookupAgent w.agents k = some pos) (hinv : InvW w) :
    InvW (moveAgent w k pos a) := by
  have hposf := (hinv.2.2.2) (k, pos) (lookupAgent_mem _ _ _ hlk)
  have hb1 : 0 < pos.1 := hposf.1.1
  have hb2 : pos.1 < w.size := hposf.1.2.1
  have hb3 : 0 < pos.2 := hposf.1.2.2.1
  have hb4 : pos.2 < w.size := hposf.1.2.2.2
  unfold moveAgent
  by_cases ha1 : a = 1
  · rw [if_pos ha1]
    by_cases hg : pos.1 - 1 > 0 ∧ w.map (pos.1 - 1) pos.2 = 0
    · rw [if_pos hg]
      refine move_core_inv w k pos (pos.1 - 1, pos.2) hlk hinv hg.1
        (by show pos.1 - 1 < w.size; omega) hb3 hb4 ?_ hg.2
      intro h
      have h1 : pos.1 - 1 = pos.1 := congrArg Prod.fst h
      omega
    · rw [if_neg hg]
      exact hinv
  · rw [if_neg ha1]
    by_cases ha2 : a = 2
    · rw [if_pos ha2]
      by_cases hg : pos.1 + 1 < w.size ∧ w.map (pos.1 + 1) pos.2 = 0
      · rw [if_pos hg]
        refine move_core_inv w k pos (pos.1 + 1, pos.2) hlk hinv
          (by show (0 : Int) < pos.1 + 1; omega) hg.1 hb3 hb4 ?_ hg.2
        intro h
        have h1 : pos.1 + 1 = pos.1 := congrArg Prod.fst h
        omega
      · rw [if_neg hg]
        exact hinv
    · rw [if_neg ha2]
      by_cases ha3 : a = 3
      · rw [if_pos ha3]
        by_cases hg : pos.2 - 1 > 0 ∧ w.map pos.1 (pos.2 - 1) = 0
        · rw [if_pos hg]
          refine move_core_inv w k pos (pos.1, pos.2 - 1) hlk hinv hb1 hb2 hg.1
            (by show pos.2 - 1 < w.size; omega) ?_ hg.2
          intro h
          have h1 : pos.2 - 1 = pos.2 := congrArg Prod.snd h
          omega
        · rw [if_neg hg]
          exact hinv
      · rw [if_neg ha3]
        by_cases ha4 : a = 4
        · rw [if_pos ha4]
          by_cases hg : pos.2 + 1 < w.size ∧ w.map pos.1 (pos.2 + 1) = 0
          · rw [if_pos hg]
            refine move_core_inv w k pos (pos.1, pos.2 + 1) hlk hinv hb1 hb2
              (by show (0 : Int) < pos.2 + 1; omega) hg.1 ?_ hg.2
            intro h
            have h1 : pos.2 + 1 = pos.2 := congrArg Prod.snd h
            omega
          · rw [if_neg hg]
            exact hinv
        · rw [if_neg ha4]
          exact hinv

theorem update_map_inv (w : World) (hinv : InvW w) : InvW (update_map w) := by
  obtain ⟨hcnt, hbound, hpw, hcons⟩ := hinv
  have hsz : (update_map w).size = w.size := scanList_size _ w
  have hag : (update_map w).agents = w.agents := scanList_agents _ w
  have hnb : (update_map w).nb_targets = w.nb_targets := scanList_nb_targets _ w
  have hc := update_map_count2 w
  have ha := (update_map_spec w).2
  refine ⟨?_, ?_, ?_, ?_⟩
  · rw [hsz, ha]
    omega
  · rw [hnb, ha]
    omega
  · rw [hag]
    exact hpw
  · intro e he
    rw [hag] at he
    have h := hcons e he
    rw [hsz]
    exact ⟨h.1, (scanList_agentcell _ w e.2.1 e.2.2).2 h.2⟩

theorem runJoint_fst_inv (l : List (Nat × Int)) (w : World) (hinv : InvW w) :
    InvW (runJoint w l).1 := by
  induction l generalizing w with
  | nil => exact hinv
  | cons q t ih =>
    cases q with
    | mk k a =>
      cases hlk : lookupAgent w.agents k with
      | some pos =>
        rw [runJoint, hlk]
        exact ih (moveAgent w k pos a) (moveAgent_inv w k pos a hlk hinv)
      | none =>
        rw [runJoint, hlk]
        exact hinv

theorem update_fst_inv (w : World) (ja : List (Nat × Int)) (hinv : InvW w) :
    InvW (update w ja).1 := by
  have h1 := runJoint_fst_inv ja w hinv
  unfold update
  cases hrj : runJoint w ja with
  | mk w1 b =>
    rw [hrj] at h1
    cases b
    · exact h1
    · exact update_map_inv w1 h1

theorem runUpdates_inv (jas : List (List (Nat × Int))) (w : World) (hinv : InvW w) :
    InvW (runUpdates w jas) := by
  induction jas generalizing w with
  | nil => exact hinv
  | cons ja t ih =>
    rw [runUpdates]
    exact ih (update w ja).1 (update_fst_inv w ja hinv)

theorem runJoint_alive (l : List (Nat × Int)) (w : World) :
    (runJoint w l).1.targets_alive = w.targets_alive := by
  induction l generalizing w with
  | nil => rfl
  | cons q t ih =>
    cases q with
    | mk k a =>
      cases hlk : lookupAgent w.agents k with
      | some pos =>
        rw [runJoint, hlk, ih, moveAgent_alive]
      | none =>
        rw [runJoint, hlk]

theorem update_alive_le (w : World) (ja : List (Nat × Int)) :
    (update w ja).1.targets_alive ≤ w.targets_alive := by
  have hrja := runJoint_alive ja w
  unfold update
  cases hrj : runJoint w ja with
  | mk w1 b =>
    rw [hrj] at hrja
    cases b
    · exact le_of_eq hrja
    · have := (update_map_spec w1).2
      rw [this, hrja]
      omega

theorem resetPlace_inv (w : World) (ridx : List Nat)
    (hbound : ∀ i, i < w.nb_agents + w.nb_targets →
      ridx.getD i 0 < (w.size - 2).toNat * (w.size - 2).toNat)
    (hinj : ∀ i, i < w.nb_agents + w.nb_targets →
      ∀ j, j < w.nb_agents + w.nb_targets → ridx.getD i 0 = ridx.getD j 0 → i = j) :
    InvW (resetPlace w ridx) := by
  have hnd := entityPos_nodup w ridx hbound hinj
  rw [List.nodup_append] at hnd
  obtain ⟨hndA, hndT, hdisj⟩ := hnd
  have hlenA : (agentsPos w ridx).length = w.nb_agents := by simp [agentsPos]
  refine ⟨?_, ?_, ?_, ?_⟩
  · show (countVal w.size (resetPlace w ridx).map 2 : Int) = ((w.nb_targets : Nat) : Int)
    rw [(resetPlace_count w ridx hbound hinj).2]
  · show ((w.nb_targets : Nat) : Int) ≤ ((w.nb_targets : Nat) : Int)
    exact le_refl _
  · show List.Pairwise _ ((List.range w.nb_agents).map
      (fun i => (i + 1, (agentsPos w ridx).getD i (0, 0))))
    refine List.pairwise_map.2 ((List.pairwise_lt_range w.nb_agents).imp_of_mem ?_)
    intro i j hi hj hij
    rw [List.mem_range] at hi hj
    constructor
    · simp only [ne_eq, Nat.add_right_cancel_iff]
      omega
    · simp only [agentsPos, getD_map_range _ _ i _ hi, getD_map_range _ _ j _ hj]
      intro he
      have hij' := hinj i (by omega) j (by omega)
        (nodup_getD_inj (interiorList w.size) (0, 0) (nodup_interiorList _)
          (by rw [length_interiorList]; exact hbound i (by omega))
          (by rw [length_interiorList]; exact hbound j (by omega)) he)
      omega
  · intro e he
    rcases List.mem_map.1 he with ⟨i, hi, rfl⟩
    rw [List.mem_range] at hi
    have hgd : (agentsPos w ridx).getD i (0, 0) ∈ agentsPos w ridx :=
      getD_mem _ _ _ (by rw [hlenA]; exact hi)
    have hint : (agentsPos w ridx).getD i (0, 0) ∈ interiorList w.size :=
      entityPos_mem w ridx hbound _ (List.mem_append.2 (Or.inl hgd))
    have hbnds := interiorList_bounds w.size _ hint
    have hnotT : (agentsPos w ridx).getD i (0, 0) ∉ targetsPos w ridx :=
      fun hm => hdisj hgd hm
    constructor
    · show (0 < ((agentsPos w ridx).getD i (0, 0)).1 ∧
        ((agentsPos w ridx).getD i (0, 0)).1 < w.size ∧
        0 < ((agentsPos w ridx).getD i (0, 0)).2 ∧
        ((agentsPos w ridx).getD i (0, 0)).2 < w.size)
      omega
    · show (resetPlace w ridx).map ((agentsPos w ridx).getD i (0, 0)).1
        ((agentsPos w ridx).getD i (0, 0)).2 = 1
      rw [resetPlace_map, if_neg, if_pos hgd]
      intro hm
      exact hnotT hm

/-! ### Tick failure and success characterization -/

theorem updateAction_keys (w : World) (a : Int) (k : Nat) :
    (updateAction w a k).agents.map Prod.fst = w.agents.map Prod.fst := by
  unfold updateAction
  cases hlk : lookupAgent w.agents k with
  | some pos => exact moveAgent_keys w k pos a
  | none => rfl

theorem applyMoves_keys (l : List (Nat × Int)) (w : World) :
    (applyMoves w l).agents.map Prod.fst = w.agents.map Prod.fst := by
  induction l generalizing w with
  | nil => rfl
  | cons q t ih =>
    rw [applyMoves, ih, updateAction_keys]

theorem runJoint_append_good (good rest : List (Nat × Int)) (w : World)
    (hgood : ∀ q ∈ good, lookupAgent w.agents q.1 ≠ none) :
    runJoint w (good ++ rest) = runJoint (applyMoves w good) rest := by
  induction good generalizing w with
  | nil => rfl
  | cons q t ih =>
    cases q with
    | mk k a =>
      have hk := hgood (k, a) (List.mem_cons_self _ t)
      cases hlk : lookupAgent w.agents k with
      | none => exact absurd hlk hk
      | some pos =>
        rw [List.cons_append, runJoint, hlk]
        have hua : updateAction w a k = moveAgent w k pos a := by
          rw [updateAction, hlk]
        rw [applyMoves, hua]
        apply ih
        intro q hq
        rw [Ne, lookupAgent_none_iff, moveAgent_keys, ← lookupAgent_none_iff]
        exact hgood q (List.mem_cons_of_mem _ hq)

theorem update_success_eq (w : World) (ja : List (Nat × Int))
    (h : ∀ q ∈ ja, lookupAgent w.agents q.1 ≠ none) :
    update w ja = (update_map (applyMoves w ja), true) := by
  have h1 := runJoint_append_good ja [] w h
  rw [List.append_nil] at h1
  rw [update, h1]
  rfl

theorem update_failure_eq (w : World) (good rest : List (Nat × Int))
    (bad : Nat) (a : Int)
    (hgood : ∀ q ∈ good, lookupAgent w.agents q.1 ≠ none)
    (hbad : lookupAgent w.agents bad = none) :
    update w (good ++ (bad, a) :: rest) = (applyMoves w good, false) := by
  have h1 := runJoint_append_good good ((bad, a) :: rest) w hgood
  have hbad' : lookupAgent (applyMoves w good).agents bad = none := by
    rw [lookupAgent_none_iff, applyMoves_keys, ← lookupAgent_none_iff]
    exact hbad
  rw [update, h1, runJoint, hbad']

/-! ### Claim theorems -/

/-- Claim C1: after the per-agent moves of a tick, the capture scan sets
every grid cell marked TARGET whose four orthogonal neighbours include at
least 2 in-bounds cells marked AGENT to EMPTY, and decrements
`targets_alive` by exactly 1 for each such cell (in total, by the number
of captured cells); a target with 0 or 1 orthogonal agent neighbours keeps
its TARGET mark.  `agentNeighbors` counts only the four orthogonal
neighbours, so diagonal agents are never counted. -/
theorem capture_rule_correct (w : World) (i j : Int)
    (hi : 0 ≤ i) (hi2 : i < w.size) (hj : 0 ≤ j) (hj2 : j < w.size)
    (ht : w.map i j = 2) :
    ((update_map w).map i j =
      if 2 ≤ agentNeighbors w.size w.map i j then 0 else 2) ∧
    (update_map w).targets_alive =
      w.targets_alive - (capturedCount w.size w.map : Int) := by
  have hp : ((i, j) : Int × Int) ∈ cellList w.size :=
    (mem_cellList _ _).2 ⟨hi, hi2, hj, hj2⟩
  have h := update_map_spec w
  refine ⟨?_, h.2⟩
  have h1 := h.1 (i, j) hp ht
  rw [h1]
  simp [agent_capture]

theorem capture_rule_correct_witness :
    (0 : Int) ≤ 2 ∧ (2 : Int) < cw1.size ∧ cw1.map 2 2 = 2 ∧
    (((update_map cw1).map 2 2 =
      if 2 ≤ agentNeighbors cw1.size cw1.map 2 2 then 0 else 2) ∧
    (update_map cw1).targets_alive =
      cw1.targets_alive - (capturedCount cw1.size cw1.map : Int)) :=
  ⟨by decide, by decide, by decide,
    capture_rule_correct cw1 2 2 (by decide) (by decide) (by decide) (by decide)
      (by decide)⟩

theorem move_write_facts (w : World) (k : Nat) (pos d : Int × Int)
    (hlk : lookupAgent w.agents k = some pos)
    (hdpos : ¬(d.1 = pos.1 ∧ d.2 = pos.2)) :
    (mset (mset w.map d.1 d.2 1) pos.1 pos.2 0) d.1 d.2 = 1 ∧
    (mset (mset w.map d.1 d.2 1) pos.1 pos.2 0) pos.1 pos.2 = 0 ∧
    lookupAgent (setAgent w.agents k d) k = some d := by
  refine ⟨?_, mset_same _ _ _ _, lookupAgent_setAgent_self _ _ _ _ hlk⟩
  rw [mset_ne _ _ _ _ hdpos]
  exact mset_same _ _ _ _

/-- Claim C2: for every agent and directional action, the position changes
iff the destination passes the direction's boundary check and currently
holds EMPTY; on success the destination cell becomes AGENT, the origin
cell becomes EMPTY, and the stored position becomes the destination
(which differs from the origin); when either condition fails the action
is a total no-op on the whole world state (no error is modelled:
`updateAction` is a total function), and NOOP (code 0) never moves. -/
theorem move_semantics (w : World) (k : Nat) (pos : Int × Int)
    (hlk : lookupAgent w.agents k = some pos) :
    (updateAction w 0 k = w) ∧
    (((pos.1 - 1 > 0 ∧ w.map (pos.1 - 1) pos.2 = 0) →
        (updateAction w 1 k).map (pos.1 - 1) pos.2 = 1 ∧
        (updateAction w 1 k).map pos.1 pos.2 = 0 ∧
        lookupAgent (updateAction w 1 k).agents k = some (pos.1 - 1, pos.2) ∧
        ((pos.1 - 1, pos.2) : Int × Int) ≠ pos) ∧
      (¬(pos.1 - 1 > 0 ∧ w.map (pos.1 - 1) pos.2 = 0) → updateAction w 1 k = w)) ∧
    (((pos.1 + 1 < w.size ∧ w.map (pos.1 + 1) pos.2 = 0) →
        (updateAction w 2 k).map (pos.1 + 1) pos.2 = 1 ∧
        (updateAction w 2 k).map pos.1 pos.2 = 0 ∧
        lookupAgent (updateAction w 2 k).agents k = some (pos.1 + 1, pos.2) ∧
        ((pos.1 + 1, pos.2) : Int × Int) ≠ pos) ∧
      (¬(pos.1 + 1 < w.size ∧ w.map (pos.1 + 1) pos.2 = 0) → updateAction w 2 k = w)) ∧
    (((pos.2 - 1 > 0 ∧ w.map pos.1 (pos.2 - 1) = 0) →
        (updateAction w 3 k).map pos.1 (pos.2 - 1) = 1 ∧
        (updateAction w 3 k).map pos.1 pos.2 = 0 ∧
        lookupAgent (updateAction w 3 k).agents k = some (pos.1, pos.2 - 1) ∧
        ((pos.1, pos.2 - 1) : Int × Int) ≠ pos) ∧
      (¬(pos.2 - 1 > 0 ∧ w.map pos.1 (pos.2 - 1) = 0) → updateAction w 3 k = w)) ∧
    (((pos.2 + 1 < w.size ∧ w.map pos.1 (pos.2 + 1) = 0) →
        (updateAction w 4 k).map pos.1 (pos.2 + 1) = 1 ∧
        (updateAction w 4 k).map pos.1 pos.2 = 0 ∧
        lookupAgent (updateAction w 4 k).agents k = some (pos.1, pos.2 + 1) ∧
        ((pos.1, pos.2 + 1) : Int × Int) ≠ pos) ∧
      (¬(pos.2 + 1 < w.size ∧ w.map pos.1 (pos.2 + 1) = 0) →
        updateAction w 4 k = w)) := by
  have hua : ∀ a : Int, updateAction w a k = moveAgent w k pos a := by
    intro a
    unfold updateAction
    rw [hlk]
  refine ⟨?_, ⟨?_, ?_⟩, ⟨?_, ?_⟩, ⟨?_, ?_⟩, ⟨?_, ?_⟩⟩
  · rw [hua 0]
    unfold moveAgent
    rw [if_neg (by decide), if_neg (by decide), if_neg (by decide), if_neg (by decide)]
  · intro hg
    rw [hua 1]
    have hred : moveAgent w k pos 1 = { w with
        map := mset (mset w.map (pos.1 - 1) pos.2 1) pos.1 pos.2 0
        agents := setAgent w.agents k (pos.1 - 1, pos.2) } := by
      unfold moveAgent
      rw [if_pos rfl, if_pos hg]
    rw [hred]
    have hfacts := move_write_facts w k pos (pos.1 - 1, pos.2) hlk
      (fun h => by have h1 : pos.1 - 1 = pos.1 := h.1; omega)
    exact ⟨hfacts.1, hfacts.2.1, hfacts.2.2,
      fun h => by have h1 : pos.1 - 1 = pos.1 := congrArg Prod.fst h; omega⟩
  · intro hg
    rw [hua 1]
    unfold moveAgent
    rw [if_pos rfl, if_neg hg]
  · intro hg
    rw [hua 2]
    have hred : moveAgent w k pos 2 = { w with
        map := mset (mset w.map (pos.1 + 1) pos.2 1) pos.1 pos.2 0
        agents := setAgent w.agents k (pos.1 + 1, pos.2) } := by
      unfold moveAgent
      rw [if_neg (by decide), if_pos rfl, if_pos hg]
    rw [hred]
    have hfacts := move_write_facts w k pos (pos.1 + 1, pos.2) hlk
      (fun h => by have h1 : pos.1 + 1 = pos.1 := h.1; omega)
    exact ⟨hfacts.1, hfacts.2.1, hfacts.2.2,
      fun h => by have h1 : pos.1 + 1 = pos.1 := congrArg Prod.fst h; omega⟩
  · intro hg
    rw [hua 2]
    unfold moveAgent
    rw [if_neg (by decide), if_pos rfl, if_neg hg]
  · intro hg
    rw [hua 3]
    have hred : moveAgent w k pos 3 = { w with
        map := mset (mset w.map pos.1 (pos.2 - 1) 1) pos.1 pos.2 0
        agents := setAgent w.agents k (pos.1, pos.2 - 1) } := by
      unfold moveAgent
      rw [if_neg (by decide), if_neg (by decide), if_pos rfl, if_pos hg]
    rw [hred]
    have hfacts := move_write_facts w k pos (pos.1, pos.2 - 1) hlk
      (fun h => by have h1 : pos.2 - 1 = pos.2 := h.2; omega)
    exact ⟨hfacts.1, hfacts.2.1, hfacts.2.2,
      fun h => by have h1 : pos.2 - 1 = pos.2 := congrArg Prod.snd h; omega⟩
  · intro hg
    rw [hua 3]
    unfold moveAgent
    rw [if_neg (by decide), if_neg (by decide), if_pos rfl, if_neg hg]
  · intro hg
    rw [hua 4]
    have hred : moveAgent w k pos 4 = { w with
        map := mset (mset w.map pos.1 (pos.2 + 1) 1) pos.1 pos.2 0
        agents := setAgent w.agents k (pos.1, pos.2 + 1) } := by
      unfold moveAgent
      rw [if_neg (by decide), if_neg (by decide), if_neg (by decide), if_pos rfl,
        if_pos hg]
    rw [hred]
    have hfacts := move_write_facts w k pos (pos.1, pos.2 + 1) hlk
      (fun h => by have h1 : pos.2 + 1 = pos.2 := h.2; omega)
    exact ⟨hfacts.1, hfacts.2.1, hfacts.2.2,
      fun h => by have h1 : pos.2 + 1 = pos.2 := congrArg Prod.snd h; omega⟩
  · intro hg
    rw [hua 4]
    unfold moveAgent
    rw [if_neg (by decide), if_neg (by decide), if_neg (by decide), if_pos rfl,
      if_neg hg]

theorem move_semantics_witness :
    lookupAgent cw2.agents 1 = some (2, 2) ∧
    (updateAction cw2 1 1).map 1 2 = 1 ∧
    (updateAction cw2 1 1).map 2 2 = 0 ∧
    lookupAgent (updateAction cw2 1 1).agents 1 = some (1, 2) :=
  ⟨by decide,
    ((move_semantics cw2 1 (2, 2) (by decide)).2.1.1 (by decide)).1,
    ((move_semantics cw2 1 (2, 2) (by decide)).2.1.1 (by decide)).2.1,
    ((move_semantics cw2 1 (2, 2) (by decide)).2.1.1 (by decide)).2.2.1⟩

/-- Counterexample to claim C3 as stated: in a size-4 world the agent at
(2,1) issuing DOWN (code 2) moves onto the bottom border row 3, even
though row 3 lies outside the interior `[1, size-2] = [1, 2]`: the border
ring is not impassable for DOWN (nor RIGHT). -/
theorem border_down_crossing_counterexample :
    cw3.size = 4 ∧
    lookupAgent cw3.agents 1 = some (2, 1) ∧
    lookupAgent (updateAction cw3 2 1).agents 1 = some (3, 1) ∧
    ¬((3 : Int) ≤ cw3.size - 2) := by decide

/-- Claim C3 amended: the boundary checks block UP and LEFT at the border
(a destination row/column of 0 is never entered), while DOWN and RIGHT are
blocked only when the destination coordinate would reach `size` — so the
top row and leftmost column are impassable, but an agent can step onto the
bottom row `size-1` or rightmost column `size-1` when that cell is empty. -/
theorem border_semantics (w : World) (k : Nat) (pos : Int × Int)
    (hlk : lookupAgent w.agents k = some pos) :
    (pos.1 - 1 ≤ 0 → updateAction w 1 k = w) ∧
    (w.size ≤ pos.1 + 1 → updateAction w 2 k = w) ∧
    (pos.2 - 1 ≤ 0 → updateAction w 3 k = w) ∧
    (w.size ≤ pos.2 + 1 → updateAction w 4 k = w) := by
  have hua : ∀ a : Int, updateAction w a k = moveAgent w k pos a := by
    intro a
    unfold updateAction
    rw [hlk]
  refine ⟨?_, ?_, ?_, ?_⟩
  · intro hb
    rw [hua 1]
    unfold moveAgent
    rw [if_pos rfl, if_neg (fun h => by have := h.1; omega)]
  · intro hb
    rw [hua 2]
    unfold moveAgent
    rw [if_neg (by decide), if_pos rfl, if_neg (fun h => by have := h.1; omega)]
  · intro hb
    rw [hua 3]
    unfold moveAgent
    rw [if_neg (by decide), if_neg (by decide), if_pos rfl,
      if_neg (fun h => by have := h.1; omega)]
  · intro hb
    rw [hua 4]
    unfold moveAgent
    rw [if_neg (by decide), if_neg (by decide), if_neg (by decide), if_pos rfl,
      if_neg (fun h => by have := h.1; omega)]

theorem border_semantics_witness :
    lookupAgent cw9.agents 1 = some (1, 1) ∧
    ((1 : Int) - 1 ≤ 0) ∧
    updateAction cw9 1 1 = cw9 :=
  ⟨by decide, by decide, (border_semantics cw9 1 (1, 1) (by decide)).1 (by decide)⟩

/-- Claim C10: for an agent present in the world, any action code outside
{1,2,3,4} — including 0 (NOOP) and out-of-range values such as 5 or -1 —
matches none of the four movement branches, raises nothing, and leaves
the whole world (grid, stored positions, `targets_alive`) unchanged. -/
theorem out_of_range_action_noop (w : World) (k : Nat) (pos : Int × Int)
    (hlk : lookupAgent w.agents k = some pos) (a : Int)
    (h1 : a ≠ 1) (h2 : a ≠ 2) (h3 : a ≠ 3) (h4 : a ≠ 4) :
    updateAction w a k = w := by
  have hua : updateAction w a k = moveAgent w k pos a := by
    unfold updateAction
    rw [hlk]
  rw [hua]
  unfold moveAgent
  rw [if_neg h1, if_neg h2, if_neg h3, if_neg h4]

theorem out_of_range_action_noop_witness :
    lookupAgent cw2.agents 1 = some (2, 2) ∧
    updateAction cw2 5 1 = cw2 ∧
    updateAction cw2 (-1) 1 = cw2 :=
  ⟨by decide,
    out_of_range_action_noop cw2 1 (2, 2) (by decide) 5
      (by decide) (by decide) (by decide) (by decide),
    out_of_range_action_noop cw2 1 (2, 2) (by decide) (-1)
      (by decide) (by decide) (by decide) (by decide)⟩

theorem resetPlace_agent_positions (w : World) (ridx : List Nat) :
    (resetPlace w ridx).agents.map (fun e => e.2) = agentsPos w ridx := by
  show ((List.range w.nb_agents).map
      (fun i => (i + 1, (agentsPos w ridx).getD i (0, 0)))).map (fun e => e.2) = _
  rw [List.map_map]
  conv_rhs => rw [agentsPos]
  apply List.map_congr_left
  intro i hi
  rw [List.mem_range] at hi
  show (agentsPos w ridx).getD i (0, 0) = _
  rw [agentsPos, getD_map_range _ _ i _ hi]

/-- Claim C4: for a configuration with `nb_agents + nb_targets` at most
`(size-2)²` and a shuffle output `ridx` (bounded and injective on the used
prefix, as any permutation of `0..(size-2)²-1` is), the placement part of
`reset()` — the state just before the trailing capture scan — yields
exactly `nb_agents` AGENT cells and `nb_targets` TARGET cells, sets
`targets_alive = nb_targets`, leaves the whole border ring empty, and
stores pairwise-distinct entity positions all lying in the interior
region `[1, size-2] × [1, size-2]`. -/
theorem reset_placement_correct (w : World) (ridx : List Nat)
    (h3 : 3 ≤ w.size)
    (hle : w.nb_agents + w.nb_targets ≤ (w.size - 2).toNat * (w.size - 2).toNat)
    (hbound : ∀ i, i < w.nb_agents + w.nb_targets →
      ridx.getD i 0 < (w.size - 2).toNat * (w.size - 2).toNat)
    (hinj : ∀ i, i < w.nb_agents + w.nb_targets →
      ∀ j, j < w.nb_agents + w.nb_targets → ridx.getD i 0 = ridx.getD j 0 → i = j) :
    countVal w.size (resetPlace w ridx).map 1 = w.nb_agents ∧
    countVal w.size (resetPlace w ridx).map 2 = w.nb_targets ∧
    (resetPlace w ridx).targets_alive = (w.nb_targets : Int) ∧
    (∀ i j : Int, 0 ≤ i → i < w.size → 0 ≤ j → j < w.size →
      (i = 0 ∨ i = w.size - 1 ∨ j = 0 ∨ j = w.size - 1) →
      (resetPlace w ridx).map i j = 0) ∧
    ((resetPlace w ridx).agents.map (fun e => e.2) ++ (resetPlace w ridx).targets).Nodup ∧
    (∀ p ∈ (resetPlace w ridx).agents.map (fun e => e.2) ++ (resetPlace w ridx).targets,
      1 ≤ p.1 ∧ p.1 ≤ w.size - 2 ∧ 1 ≤ p.2 ∧ p.2 ≤ w.size - 2) ∧
    (resetPlace w ridx).agents.length = w.nb_agents ∧
    (resetPlace w ridx).targets.length = w.nb_targets := by
  have hposeq : (resetPlace w ridx).agents.map (fun e => e.2) ++ (resetPlace w ridx).targets
      = agentsPos w ridx ++ targetsPos w ridx := by
    rw [resetPlace_agent_positions]
    rfl
  have hcount := resetPlace_count w ridx hbound hinj
  refine ⟨hcount.1, hcount.2, rfl, ?_, ?_, ?_, by simp [resetPlace], by simp [resetPlace, targetsPos]⟩
  · intro i j hi0 hiS hj0 hjS hborder
    rw [resetPlace_map]
    have hmem := entityPos_mem w ridx hbound
    rw [if_neg, if_neg]
    · intro hm
      have hb := interiorList_bounds w.size (i, j)
        (hmem (i, j) (List.mem_append.2 (Or.inl hm)))
      simp only at hb
      omega
    · intro hm
      have hb := interiorList_bounds w.size (i, j)
        (hmem (i, j) (List.mem_append.2 (Or.inr hm)))
      simp only at hb
      omega
  · rw [hposeq]
    exact entityPos_nodup w ridx hbound hinj
  · rw [hposeq]
    intro p hp
    exact interiorList_bounds w.size p (entityPos_mem w ridx hbound p hp)

theorem reset_placement_correct_witness :
    (3 : Int) ≤ cw4.size ∧
    cw4.nb_agents + cw4.nb_targets ≤ (cw4.size - 2).toNat * (cw4.size - 2).toNat ∧
    countVal cw4.size (resetPlace cw4 ridx4).map 1 = cw4.nb_agents ∧
    countVal cw4.size (resetPlace cw4 ridx4).map 2 = cw4.nb_targets ∧
    (resetPlace cw4 ridx4).targets_alive = (cw4.nb_targets : Int) :=
  ⟨by decide, by decide,
    (reset_placement_correct cw4 ridx4 (by decide) (by decide) (by decide)
      (by decide)).1,
    (reset_placement_correct cw4 ridx4 (by decide) (by decide) (by decide)
      (by decide)).2.1,
    (reset_placement_correct cw4 ridx4 (by decide) (by decide) (by decide)
      (by decide)).2.2.1⟩

/-- Claim C5: in every state reachable from `reset()` by any sequence of
`update()` calls, `0 ≤ targets_alive ≤ nb_targets`; moreover a further
`update()` call never increases `targets_alive`. -/
theorem targets_alive_bounds (w : World) (ridx : List Nat)
    (jas : List (List (Nat × Int)))
    (h3 : 3 ≤ w.size)
    (hle : w.nb_agents + w.nb_targets ≤ (w.size - 2).toNat * (w.size - 2).toNat)
    (hbound : ∀ i, i < w.nb_agents + w.nb_targets →
      ridx.getD i 0 < (w.size - 2).toNat * (w.size - 2).toNat)
    (hinj : ∀ i, i < w.nb_agents + w.nb_targets →
      ∀ j, j < w.nb_agents + w.nb_targets → ridx.getD i 0 = ridx.getD j 0 → i = j) :
    0 ≤ (runUpdates (reset w ridx) jas).targets_alive ∧
    (runUpdates (reset w ridx) jas).targets_alive ≤
      ((runUpdates (reset w ridx) jas).nb_targets : Int) ∧
    ∀ ja, (update (runUpdates (reset w ridx) jas) ja).1.targets_alive ≤
      (runUpdates (reset w ridx) jas).targets_alive := by
  have hinv : InvW (runUpdates (reset w ridx) jas) :=
    runUpdates_inv jas _ (update_map_inv _ (resetPlace_inv w ridx hbound hinj))
  refine ⟨?_, hinv.2.1, fun ja => update_alive_le _ ja⟩
  have h := hinv.1
  omega

theorem targets_alive_bounds_witness :
    0 ≤ (runUpdates (reset cw4 ridx4) [[(1, 2)]]).targets_alive ∧
    (runUpdates (reset cw4 ridx4) [[(1, 2)]]).targets_alive ≤
      ((runUpdates (reset cw4 ridx4) [[(1, 2)]]).nb_targets : Int) :=
  ⟨(targets_alive_bounds cw4 ridx4 [[(1, 2)]] (by decide) (by decide) (by decide)
      (by decide)).1,
    (targets_alive_bounds cw4 ridx4 [[(1, 2)]] (by decide) (by decide) (by decide)
      (by decide)).2.1⟩

/-- Claim C7 (code bug): the `seed` constructor argument is stored but
never fed to the random number generator, so `reset()`'s placement is a
function of the global shuffle draw and not of the seed.  With the seed
held fixed at 42, two different draws (as produced by two successive
`reset()` calls on the advancing global RNG) place the agent differently;
conversely, changing the seed while fixing the draw changes nothing. -/
theorem seed_unused_in_reset :
    w7a.seed = 42 ∧ w7b.seed = 43 ∧
    (resetPlace w7a r7a).agents ≠ (resetPlace w7a r7b).agents ∧
    (resetPlace w7a r7a).agents = (resetPlace w7b r7a).agents ∧
    (resetPlace w7a r7a).targets = (resetPlace w7b r7a).targets := by decide

/-- Counterexample to claim C8 as stated: a valid 5×5 configuration
(two agents, one target, all placement-validity conditions satisfied)
whose shuffle puts the agents at (1,2) and (3,2) and the target at (2,2);
the capture scan run at the end of `reset()` then captures the target
immediately, so `targets_alive` is 0, not `nb_targets = 1`, right after
`reset()` — the post-placement scan is not a no-op. -/
theorem reset_capture_not_noop_counterexample :
    cw8.nb_agents + cw8.nb_targets ≤ (cw8.size - 2).toNat * (cw8.size - 2).toNat ∧
    (∀ i, i < cw8.nb_agents + cw8.nb_targets →
      ridx8.getD i 0 < (cw8.size - 2).toNat * (cw8.size - 2).toNat) ∧
    (∀ i, i < cw8.nb_agents + cw8.nb_targets →
      ∀ j, j < cw8.nb_agents + cw8.nb_targets →
        ridx8.getD i 0 = ridx8.getD j 0 → i = j) ∧
    (resetPlace cw8 ridx8).map 2 2 = 2 ∧
    (reset cw8 ridx8).map 2 2 = 0 ∧
    (reset cw8 ridx8).targets_alive = 0 ∧
    cw8.nb_targets = 1 := by decide

/-- Claim C8 amended: the capture scan run by `reset()` is not always a
no-op; placement only guarantees distinct cells, so a target may spawn
with 2 orthogonal agent neighbours and be captured at once.  In general
`reset()` ends with `targets_alive = nb_targets` minus the number of
freshly placed targets already surrounded by at least 2 agents. -/
theorem reset_scan_effect (w : World) (ridx : List Nat) :
    (reset w ridx).targets_alive =
      (w.nb_targets : Int) - (capturedCount w.size (resetPlace w ridx).map : Int) :=
  (update_map_spec (resetPlace w ridx)).2

/-- Counterexample to claim C9 as stated: the joint action moves agent 1
right and then names the nonexistent agent 2; the tick fails (the
`KeyError` escapes, flag `false`), yet agent 1's move has already mutated
the grid — cell (1,2) holds an agent in the escaping state while it was
empty before — so a validation failure does not leave the state unmutated. -/
theorem update_not_atomic_counterexample :
    (update cw9 [(1, 4), (2, 1)]).2 = false ∧
    (update cw9 [(1, 4), (2, 1)]).1.map 1 2 = 1 ∧
    cw9.map 1 2 = 0 := by decide

/-- Claim C9 amended: `update()` completes the whole tick — all moves,
then the capture scan — exactly when every named agent exists; when the
joint action names an unknown agent, the moves of the agents listed
before it remain applied and the capture scan does not run: the tick is
not atomic, it aborts mid-way with the prefix mutations retained. -/
theorem update_atomicity_amended :
    (∀ (w : World) (ja : List (Nat × Int)),
      (∀ q ∈ ja, lookupAgent w.agents q.1 ≠ none) →
      update w ja = (update_map (applyMoves w ja), true)) ∧
    (∀ (w : World) (good rest : List (Nat × Int)) (bad : Nat) (a : Int),
      (∀ q ∈ good, lookupAgent w.agents q.1 ≠ none) →
      lookupAgent w.agents bad = none →
      update w (good ++ (bad, a) :: rest) = (applyMoves w good, false)) :=
  ⟨update_success_eq, update_failure_eq⟩

theorem update_atomicity_amended_witness :
    lookupAgent cw9.agents 2 = none ∧
    update cw9 ([(1, 4)] ++ (2, 1) :: []) = (applyMoves cw9 [(1, 4)], false) :=
  ⟨by decide,
    update_atomicity_amended.2 cw9 [(1, 4)] [] 2 1 (by decide) (by decide)⟩
